import Mathlib

/-!
Verification development for the PTYHooks relay engine (ptyhooks.py).

Shallow embedding conventions:
* bytes are lists of naturals (`Bytes`); the byte values themselves are
  irrelevant to the control flow being verified;
* the blocking primitives (`select.select`, `os.read`, `os.write`,
  `process.poll`) are modelled by oracles: per-iteration environments
  (`IterEnv`) for the relay loop, attempt-indexed call oracles for the
  EINTR wrapper, and an acceptance oracle for partial writes;
* exceptions are modelled with `Except`/outcome constructors carrying the
  errno; `errnoEintr` and `errnoEio` use the Linux numeric values;
* signal handlers are modelled by the `Handler` type; Python truthiness of
  a handler value (`SIG_DFL` is `0`, hence falsy; `None` is falsy) is
  `Handler.truthy`.
-/

set_option maxHeartbeats 1000000

namespace PTYHooks

/-- Bytes are modelled as lists of naturals. -/
abbrev Bytes := List Nat

/-- errno value for an interrupted system call (EINTR). -/
def errnoEintr : Nat := 4

/-- errno value for an input/output error (EIO), raised by a read on a pty
master whose peer side has closed, at least on Linux. -/
def errnoEio : Nat := 5

/-- STDIN_FILENO, the controlling-input descriptor. -/
def stdinFd : Nat := 0

/-- A hook: called with the current chunk and the descriptor used to talk to
the subprocess, returns an optional replacement chunk (line 204 / 224). -/
abbrev Hook := Bytes → Nat → Option Bytes

/-- Lines 203-208 (and identically 223-228): thread a chunk through the hook
chain.  `None` from a hook leaves the chunk unchanged; an empty result breaks
out of the loop without updating the chunk; a non-empty result replaces the
chunk for the remaining hooks.  The value returned here is the value of the
`data` variable when the loop is left, which the code then passes to `write`
unconditionally (line 210 / 230). -/
def runHooks (hooks : List Hook) (data : Bytes) (fd : Nat) : Bytes :=
  match hooks with
  | [] => data
  | h :: rest =>
    match h data fd with
    | none => runHooks rest data fd
    | some newData => if newData = [] then data else runHooks rest newData fd

/-- Lines 107-115, the `write` loop body.  `w k s` is the number of bytes the
k-th call to the underlying `_write` primitive accepts when handed the slice
`s`; that call delivers the first `w k s` bytes of `s`.  The Python slice
`data[-remaining:]` is `data.drop (data.length - remaining)`.  The function
returns the concatenation of all delivered bytes, or `none` when the fuel
runs out (the Python loop has no fuel; the fuel only makes the model total).
-/
def write_loop (w : Nat → Bytes → Nat) (data : Bytes) : Nat → Nat → Nat → Option Bytes
  | _, 0, _ => some []
  | _, _ + 1, 0 => none
  | k, r + 1, f + 1 =>
    let slice := data.drop (data.length - (r + 1))
    let accepted := w k slice
    match write_loop w data (k + 1) (r + 1 - accepted) f with
    | none => none
    | some rest => some (slice.take accepted ++ rest)

/-- Lines 107-115: `write(fd, data)` starts with `remaining = len(data)` and
loops until everything is accepted. -/
def write (w : Nat → Bytes → Nat) (data : Bytes) : Option Bytes :=
  write_loop w data 0 data.length data.length

/-- Lines 57-71, `eintr_protect`: retry the wrapped call while it fails with
EINTR, re-raise any other error, return the first successful value.  `call k`
is the outcome of the k-th attempt; the fuel only makes the model total. -/
def eintr_protect (call : Nat → Except Nat Bytes) : Nat → Nat → Option (Except Nat Bytes)
  | _, 0 => none
  | k, fuel + 1 =>
    match call k with
    | Except.error er =>
      if er ≠ errnoEintr then some (Except.error er)
      else eintr_protect call (k + 1) fuel
    | Except.ok v => some (Except.ok v)

/-- Line 73 (a host without interpreter-level retry, Python before 3.5):
`read = eintr_protect(os.read)`; this is the read used on the pty master at
line 190. -/
def read_wrapped (call : Nat → Except Nat Bytes) (fuel : Nat) : Option (Except Nat Bytes) :=
  eintr_protect call 0 fuel

/-- Line 220: `user_input = os.read(STDIN_FILENO, maxread)` — the raw
primitive, a single attempt, not the `eintr_protect`-wrapped `read`. -/
def stdin_read_raw (call : Nat → Except Nat Bytes) : Except Nat Bytes :=
  call 0

/-- A signal-handler value as seen by `signal.getsignal`/`signal.signal`.
`sigDfl` stands for both `SIG_DFL` (= 0, falsy in Python) and `None`;
`dummy` is the transient `lambda *args: None` installed at line 140. -/
inductive Handler
  | sigDfl
  | sigIgn
  | dummy
  | fn (id : Nat)
  deriving DecidableEq

/-- Python truthiness of a handler value: `SIG_DFL` (0) and `None` are falsy,
everything else is truthy. -/
def Handler.truthy : Handler → Bool
  | Handler.sigDfl => false
  | _ => true

/-- Truthiness of `old_sigwinch_handler`, which is `None` when the
controlling input is not a tty (line 142) and otherwise the previous SIGWINCH
handler returned by `signal.signal` (line 156). -/
def optHandlerTruthy : Option Handler → Bool
  | none => false
  | some h => h.truthy

/-- Lines 138-140: the SIGCHLD handler installed after setup, given the
pre-existing handler `h`: the dummy is installed only when `h` is falsy. -/
def sigchld_setup (h : Handler) : Handler :=
  if h.truthy then h else Handler.dummy

/-- Lines 241-242: the SIGCHLD handler after the `finally` block, given the
saved `old` handler and the handler `cur` that is currently installed:
`old` is re-installed only when it is truthy. -/
def sigchld_teardown (old cur : Handler) : Handler :=
  if old.truthy then old else cur

/-- The SIGCHLD handler left installed after a full run (setup at lines
138-140 followed by teardown at lines 241-242), given the handler `h` that
was registered before the run. -/
def sigchld_final (h : Handler) : Handler :=
  sigchld_teardown h (sigchld_setup h)

/-- Observable actions of the relay and of the `finally` block. -/
inductive Event
  | writeOut (data : Bytes)
  | writeMaster (data : Bytes)
  | dropStdin
  | restoreWinch
  | restoreTty
  | restoreChld
  | closeMaster
  | waitChild
  deriving DecidableEq

/-- Events emitted inside the relay loop itself. -/
def Event.isRelay : Event → Bool
  | Event.writeOut _ => true
  | Event.writeMaster _ => true
  | Event.dropStdin => true
  | _ => false

/-- Events emitted by the `finally` block (lines 236-243). -/
def Event.isTeardown : Event → Bool
  | Event.restoreWinch => true
  | Event.restoreTty => true
  | Event.restoreChld => true
  | Event.closeMaster => true
  | _ => false

/-- Outcome of one `select.select` call: either a ready list or an
exception carrying its errno (both `except` arms at lines 169-183 behave
identically). -/
inductive SelectOutcome
  | ready (fds : List Nat)
  | fail (er : Nat)

/-- Outcome of one read call: data, or an exception carrying its errno. -/
inductive ReadOutcome
  | ok (data : Bytes)
  | fail (er : Nat)

/-- The environment of one loop iteration: the `select` outcome, the
`process.poll()` answer (consulted only after an interrupted wait), and the
outcomes of the master and stdin reads (consulted only when the
corresponding descriptor is ready). -/
structure IterEnv where
  sel : SelectOutcome
  pol : Option Nat
  mRead : ReadOutcome
  sRead : ReadOutcome

/-- Result of the master branch, lines 185-214. -/
inductive MasterRes
  | go (evs : List Event)
  | closed
  | fatalErr (er : Nat)

/-- Result of the stdin branch, lines 216-234. -/
inductive StdinRes
  | go (evs : List Event) (m : List Nat)
  | fatalErr (er : Nat)

/-- Result of one full iteration of the `while` loop. -/
inductive StepRes
  | cont (m : List Nat)
  | closed
  | exited (st : Nat)
  | fatal (er : Nat)

/-- How the relay loop ended. -/
inductive LoopExit
  | childClosed
  | childExited (st : Nat)
  | fatal (er : Nat)
  | setEmpty
  | scriptEnd
  deriving DecidableEq

/-- Lines 185-214: if the master is ready, read it.  An error with errno
other than EIO is re-raised; EIO breaks the loop (peer closed); non-empty
data runs the output hook chain and is written to stdout; empty data breaks
the loop. -/
def masterBranch (oh : List Hook) (pfd : Nat) (ready : List Nat) (r : ReadOutcome) : MasterRes :=
  if pfd ∈ ready then
    match r with
    | ReadOutcome.fail er =>
      if er ≠ errnoEio then MasterRes.fatalErr er else MasterRes.closed
    | ReadOutcome.ok data =>
      if data ≠ [] then MasterRes.go [Event.writeOut (runHooks oh data pfd)]
      else MasterRes.closed
  else MasterRes.go []

/-- Lines 216-234: if stdin is ready, read it with the raw primitive (an
error propagates); non-empty input runs the input hook chain and is written
to the master; empty input removes STDIN_FILENO from the monitored list
(`List.erase` removes the first occurrence, and `select` only ever reports
descriptors of the monitored list, so the element is present here). -/
def stdinBranch (ih : List Hook) (pfd : Nat) (m ready : List Nat) (r : ReadOutcome) : StdinRes :=
  if stdinFd ∈ ready then
    match r with
    | ReadOutcome.fail er => StdinRes.fatalErr er
    | ReadOutcome.ok data =>
      if data ≠ [] then StdinRes.go [Event.writeMaster (runHooks ih data pfd)] m
      else StdinRes.go [Event.dropStdin] (m.erase stdinFd)
  else StdinRes.go [] m

/-- One iteration of the `while` loop, lines 167-234.  A wait failure with
errno other than EINTR is re-raised; after an interrupted wait the loop
breaks when `process.poll()` reports termination and otherwise retries; a
break in the master branch skips the stdin branch. -/
def relayStep (oh ih : List Hook) (pfd : Nat) (m : List Nat) (e : IterEnv) :
    List Event × StepRes :=
  match e.sel with
  | SelectOutcome.fail er =>
    if er ≠ errnoEintr then ([], StepRes.fatal er)
    else
      match e.pol with
      | some st => ([], StepRes.exited st)
      | none => ([], StepRes.cont m)
  | SelectOutcome.ready ready =>
    match masterBranch oh pfd ready e.mRead with
    | MasterRes.fatalErr er => ([], StepRes.fatal er)
    | MasterRes.closed => ([], StepRes.closed)
    | MasterRes.go evs =>
      match stdinBranch ih pfd m ready e.sRead with
      | StdinRes.fatalErr er => (evs, StepRes.fatal er)
      | StdinRes.go evs2 m2 => (evs ++ evs2, StepRes.cont m2)

/-- Lines 163-234: the `while monitored_files:` loop, driven by a script of
per-iteration environments.  `scriptEnd` marks exhaustion of the script
while the loop would have continued (a model artifact, not a program
behavior); `setEmpty` marks the `while` condition becoming false. -/
def relayLoop (oh ih : List Hook) (pfd : Nat) : List Nat → List IterEnv → List Event × LoopExit
  | m, [] => if m = [] then ([], LoopExit.setEmpty) else ([], LoopExit.scriptEnd)
  | m, e :: rest =>
    if m = [] then ([], LoopExit.setEmpty)
    else
      match relayStep oh ih pfd m e with
      | (evs, StepRes.closed) => (evs, LoopExit.childClosed)
      | (evs, StepRes.exited st) => (evs, LoopExit.childExited st)
      | (evs, StepRes.fatal er) => (evs, LoopExit.fatal er)
      | (evs, StepRes.cont m2) =>
        let r := relayLoop oh ih pfd m2 rest
        (evs ++ r.1, r.2)

/-- Lines 236-243, the `finally` block: restore the SIGWINCH handler if the
saved one is truthy, restore terminal attributes if some were captured,
restore the SIGCHLD handler if the saved one is truthy, close the master. -/
def teardownTrace (ow : Option Handler) (attr : Option Nat) (oc : Handler) : List Event :=
  (if optHandlerTruthy ow then [Event.restoreWinch] else [])
    ++ (if attr.isSome then [Event.restoreTty] else [])
    ++ (if oc.truthy then [Event.restoreChld] else [])
    ++ [Event.closeMaster]

/-- Lines 239-240: the terminal attributes after the `finally` block, given
the optional captured snapshot and the current (raw-mode) attributes:
`tcsetattr` re-applies the snapshot only when one was captured. -/
def ttyTeardown (attr : Option Nat) (cur : Nat) : Nat :=
  match attr with
  | some a => a
  | none => cur

/-- Lines 163-245: run the relay loop starting from
`monitored_files = [parent_fd, STDIN_FILENO]`, then the `finally` block, then
(when no exception is propagating) `return process.wait()`.  `ws` is the
status `process.wait()` reports.  The result is the full event trace plus
either the returned status or the errno of the propagated exception. -/
def mainRun (oh ih : List Hook) (pfd : Nat) (ow : Option Handler) (attr : Option Nat)
    (oc : Handler) (script : List IterEnv) (ws : Nat) : List Event × Except Nat Nat :=
  let r := relayLoop oh ih pfd [pfd, stdinFd] script
  match r.2 with
  | LoopExit.fatal er => (r.1 ++ teardownTrace ow attr oc, Except.error er)
  | _ => (r.1 ++ teardownTrace ow attr oc ++ [Event.waitChild], Except.ok ws)

/-- A hook that returns an empty-but-present result for every chunk. -/
def suppressHook : Hook := fun _ _ => some []

/-- The first hook of spec Scenario C: replaces chunk 97 (the byte of the
character a) with 98 (b), leaves anything else untouched. -/
def hookAtoB : Hook := fun d _ => if d = [97] then some [98] else none

/-- The second hook of spec Scenario C: the identity, returning its chunk. -/
def hookIdent : Hook := fun d _ => some d

/-- A write oracle that accepts exactly one byte per call. -/
def oneByteWriter : Nat → Bytes → Nat := fun _ _ => 1

/-- A read-call oracle whose first attempt is interrupted and whose second
attempt returns one byte of data. -/
def callEx : Nat → Except Nat Bytes := fun k =>
  if k = 0 then Except.error errnoEintr else Except.ok [7]

theorem write_loop_spec (w : Nat → Bytes → Nat) (data : Bytes)
    (hw : ∀ k s, s ≠ [] → 1 ≤ w k s ∧ w k s ≤ s.length) :
    ∀ fuel k r, r ≤ data.length → r ≤ fuel →
      write_loop w data k r fuel = some (data.drop (data.length - r)) := by
  intro fuel
  induction fuel with
  | zero =>
    intro k r hr hrf
    have h0 : r = 0 := Nat.le_zero.mp hrf
    subst h0
    simp [write_loop, List.drop_length]
  | succ f ih =>
    intro k r hr hrf
    match r with
    | 0 => simp [write_loop, List.drop_length]
    | r' + 1 =>
      have hslice_len : (data.drop (data.length - (r' + 1))).length = r' + 1 := by
        rw [List.length_drop]; omega
      have hslice_ne : data.drop (data.length - (r' + 1)) ≠ [] := by
        intro h
        rw [h] at hslice_len
        simp at hslice_len
      obtain ⟨ha1, ha2⟩ := hw k (data.drop (data.length - (r' + 1))) hslice_ne
      rw [hslice_len] at ha2
      simp only [write_loop]
      rw [ih (k + 1) (r' + 1 - w k (data.drop (data.length - (r' + 1)))) (by omega) (by omega)]
      have harith : data.length - (r' + 1 - w k (data.drop (data.length - (r' + 1))))
          = (data.length - (r' + 1)) + w k (data.drop (data.length - (r' + 1))) := by
        omega
      rw [harith, ← List.drop_drop]
      simp [List.take_append_drop]

/-- C3: the write-all primitive delivers every byte, in order, without
duplication, before returning, whenever every call to the underlying write
primitive accepts at least one and at most all of the bytes it is handed —
in particular when each call accepts fewer bytes than requested. -/
theorem write_delivers_all_bytes (w : Nat → Bytes → Nat) (data : Bytes)
    (hw : ∀ k s, s ≠ [] → 1 ≤ w k s ∧ w k s ≤ s.length) :
    write w data = some data := by
  have h := write_loop_spec w data hw data.length 0 data.length le_rfl le_rfl
  simpa [write, Nat.sub_self] using h

/-- C3 witness: an oracle accepting exactly one byte per call still delivers
a three-byte chunk completely and in order. -/
theorem write_delivers_all_bytes_witness :
    write oneByteWriter [3, 4, 5] = some [3, 4, 5] :=
  write_delivers_all_bytes oneByteWriter [3, 4, 5]
    (fun _ s hs => ⟨Nat.le_refl 1, List.length_pos.mpr hs⟩)

/-- C1: the code does not suppress the write after an empty hook result.
With a single output hook returning the empty chunk, the chunk variable is
left at its pre-hook value and the unconditional write at line 210 emits it:
chunk 120 (the byte of the character x) is still written to the controlling
output, contradicting the claim that zero bytes are written. -/
theorem empty_hook_result_still_writes :
    runHooks [suppressHook] [120] 3 = [120]
    ∧ masterBranch [suppressHook] 3 [3] (ReadOutcome.ok [120])
        = MasterRes.go [Event.writeOut [120]] :=
  ⟨rfl, rfl⟩

/-- C2: hooks run in registration order over a threaded chunk: no result
leaves the chunk unchanged for the next hook, a non-empty result replaces it
for the remaining hooks and the eventual write; with the two output hooks of
spec Scenario C, chunk 97 (a) comes out as 98 (b) and chunk 120 (x) comes
out unchanged. -/
theorem hook_chain_threading :
    (∀ (h : Hook) (rest : List Hook) (d : Bytes) (fd : Nat),
        h d fd = none → runHooks (h :: rest) d fd = runHooks rest d fd)
    ∧ (∀ (h : Hook) (rest : List Hook) (d nd : Bytes) (fd : Nat),
        h d fd = some nd → nd ≠ [] → runHooks (h :: rest) d fd = runHooks rest nd fd)
    ∧ masterBranch [hookAtoB, hookIdent] 3 [3] (ReadOutcome.ok [97])
        = MasterRes.go [Event.writeOut [98]]
    ∧ masterBranch [hookAtoB, hookIdent] 3 [3] (ReadOutcome.ok [120])
        = MasterRes.go [Event.writeOut [120]] := by
  refine ⟨?_, ?_, rfl, rfl⟩
  · intro h rest d fd hh
    simp [runHooks, hh]
  · intro h rest d nd fd hh hnd
    simp [runHooks, hh, hnd]

/-- C2 witness: the threading equations evaluated at the Scenario C hook on
concrete chunks. -/
theorem hook_chain_threading_witness :
    runHooks (hookAtoB :: []) [120] 7 = runHooks [] [120] 7
    ∧ runHooks (hookAtoB :: []) [97] 7 = runHooks [] [98] 7 :=
  ⟨hook_chain_threading.1 hookAtoB [] [120] 7 rfl,
   hook_chain_threading.2.1 hookAtoB [] [97] [98] 7 rfl (by decide)⟩

/-- C4 counterexample: when no SIGCHLD handler was registered (SIG_DFL, which
is falsy), the handler left after teardown is the transient dummy, not the
original — the dummy is not removed. -/
theorem sigchld_dummy_not_removed :
    sigchld_final Handler.sigDfl = Handler.dummy
    ∧ Handler.dummy ≠ Handler.sigDfl := by
  exact ⟨rfl, by decide⟩

/-- C4 amended: the dummy SIGCHLD wakeup handler is installed only if no
handler is already registered; at teardown the previously registered handler,
if any, is restored; if none was registered, nothing is restored and the
transient dummy handler remains installed. -/
theorem sigchld_install_restore (h : Handler) :
    (h.truthy = true → sigchld_setup h = h)
    ∧ (h.truthy = true → sigchld_final h = h)
    ∧ (h.truthy = false → sigchld_final h = Handler.dummy) := by
  cases h <;>
    simp [sigchld_setup, sigchld_final, sigchld_teardown, Handler.truthy]

/-- C4 witness: a registered custom handler is untouched by setup and back in
place after teardown; with no registered handler the dummy remains. -/
theorem sigchld_install_restore_witness :
    sigchld_final (Handler.fn 0) = Handler.fn 0
    ∧ sigchld_final Handler.sigDfl = Handler.dummy :=
  ⟨(sigchld_install_restore (Handler.fn 0)).2.1 rfl,
   (sigchld_install_restore Handler.sigDfl).2.2 rfl⟩

theorem eintr_protect_spec (call : Nat → Except Nat Bytes) :
    ∀ n k fuel,
      (∀ j, j < n → call (k + j) = Except.error errnoEintr) →
      (∀ er, call (k + n) = Except.error er → er ≠ errnoEintr) →
      n < fuel →
      eintr_protect call k fuel = some (call (k + n)) := by
  intro n
  induction n with
  | zero =>
    intro k fuel _ hlast hfuel
    match fuel with
    | f + 1 =>
      simp only [eintr_protect]
      cases hc : call k with
      | error er =>
        have her : er ≠ errnoEintr := hlast er (by simpa using hc)
        simp [her, hc]
      | ok v => simp [hc]
  | succ n ih =>
    intro k fuel hpre hlast hfuel
    match fuel with
    | f + 1 =>
      have hc : call k = Except.error errnoEintr := by
        have := hpre 0 (Nat.succ_pos n)
        simpa using this
      simp only [eintr_protect, hc]
      simp only [ne_eq, not_true_eq_false, if_false]
      have hpre' : ∀ j, j < n → call (k + 1 + j) = Except.error errnoEintr := by
        intro j hj
        have := hpre (j + 1) (by omega)
        have harith : k + (j + 1) = k + 1 + j := by omega
        rwa [harith] at this
      have hlast' : ∀ er, call (k + 1 + n) = Except.error er → er ≠ errnoEintr := by
        intro er he
        apply hlast er
        have harith : k + (n + 1) = k + 1 + n := by omega
        rwa [harith]
      have := ih (k + 1) f hpre' hlast' (by omega)
      rw [this]
      have harith : k + 1 + n = k + (n + 1) := by omega
      rw [harith]

/-- C8 counterexample: on a host without interpreter-level retry (Python
before 3.5), an oracle whose first attempt is interrupted is retried to
success by the wrapped master read, but the controlling-input read at line
220 calls the raw primitive and surfaces the interrupted-call condition as
an error instead of retrying. -/
theorem stdin_read_eintr_not_retried :
    stdin_read_raw callEx = Except.error errnoEintr
    ∧ read_wrapped callEx 2 = some (Except.ok [7]) :=
  ⟨rfl, rfl⟩

/-- C8 amended: the EINTR wrapper retries interrupted calls transparently
and returns the first non-interrupted outcome (re-raising a non-EINTR
error), and the pty-master read uses this wrapper; the controlling-input
read, however, calls the unwrapped primitive, performing exactly one raw
attempt, so on hosts without interpreter-level retry an interrupted
controlling-input read is not retried. -/
theorem eintr_retry_semantics :
    (∀ (call : Nat → Except Nat Bytes) (n fuel : Nat),
        (∀ j, j < n → call j = Except.error errnoEintr) →
        (∀ er, call n = Except.error er → er ≠ errnoEintr) →
        n < fuel →
        read_wrapped call fuel = some (call n))
    ∧ (∀ (call : Nat → Except Nat Bytes) (er : Nat),
        call 0 = Except.error er → er ≠ errnoEintr →
        read_wrapped call 1 = some (Except.error er))
    ∧ (∀ call : Nat → Except Nat Bytes, stdin_read_raw call = call 0) := by
  refine ⟨?_, ?_, fun _ => rfl⟩
  · intro call n fuel hpre hlast hfuel
    have h := eintr_protect_spec call n 0 fuel (by simpa using hpre) (by simpa using hlast) hfuel
    simpa [read_wrapped] using h
  · intro call er hc her
    simp [read_wrapped, eintr_protect, hc, her]

/-- C8 witness: the wrapper applied to the oracle with one interrupted
attempt followed by data returns the outcome of attempt 1. -/
theorem eintr_retry_semantics_witness :
    read_wrapped callEx 2 = some (callEx 1) :=
  eintr_retry_semantics.1 callEx 1 2
    (fun j hj => by
      have hj0 : j = 0 := Nat.lt_one_iff.mp hj
      subst hj0
      rfl)
    (fun er he => by
      rw [show callEx 1 = Except.ok [7] from rfl] at he
      exact Except.noConfusion he)
    (by omega)

theorem stdinBranch_go_shape (ih : List Hook) (pfd : Nat) (m ready : List Nat)
    (r : ReadOutcome) (evs : List Event) (m2 : List Nat)
    (h : stdinBranch ih pfd m ready r = StdinRes.go evs m2) :
    m2 = m ∨ m2 = m.erase stdinFd := by
  unfold stdinBranch at h
  split at h
  · cases r with
    | fail er => exact StdinRes.noConfusion h
    | ok data =>
      dsimp only at h
      by_cases hd : data ≠ []
      · rw [if_pos hd] at h
        injection h with h1 h2
        exact Or.inl h2.symm
      · rw [if_neg hd] at h
        injection h with h1 h2
        exact Or.inr h2.symm
  · injection h with h1 h2
    exact Or.inl h2.symm

theorem relayStep_cont_shape (oh ih : List Hook) (pfd : Nat) (m : List Nat) (e : IterEnv)
    (evs : List Event) (m2 : List Nat)
    (h : relayStep oh ih pfd m e = (evs, StepRes.cont m2)) :
    m2 = m ∨ m2 = m.erase stdinFd := by
  obtain ⟨sel, pol, mr, sr⟩ := e
  cases sel with
  | fail er =>
    unfold relayStep at h
    by_cases he : er ≠ errnoEintr
    · simp [he] at h
    · simp only [he, if_false] at h
      cases pol with
      | some st => simp at h
      | none =>
        simp only at h
        cases h
        exact Or.inl rfl
  | ready ready =>
    unfold relayStep at h
    simp only at h
    cases hmb : masterBranch oh pfd ready mr with
    | fatalErr er => rw [hmb] at h; simp at h
    | closed => rw [hmb] at h; simp at h
    | go evsM =>
      rw [hmb] at h
      cases hsb : stdinBranch ih pfd m ready sr with
      | fatalErr er => rw [hsb] at h; simp at h
      | go evs2 m2' =>
        rw [hsb] at h
        simp only [Prod.mk.injEq, StepRes.cont.injEq] at h
        obtain ⟨-, h2⟩ := h
        subst h2
        exact stdinBranch_go_shape ih pfd m ready sr evs2 m2' hsb

/-- C7: an interrupted readiness wait leads to a poll of the subprocess —
termination already reported breaks out of the loop, otherwise the wait is
retried with the loop state unchanged; a wait failure that is not an
interruption is re-raised as fatal. -/
theorem select_eintr_handling :
    (∀ (oh ih : List Hook) (pfd : Nat) (m : List Nat) (st : Nat) (mr sr : ReadOutcome),
        relayStep oh ih pfd m (IterEnv.mk (SelectOutcome.fail errnoEintr) (some st) mr sr)
          = ([], StepRes.exited st))
    ∧ (∀ (oh ih : List Hook) (pfd : Nat) (m : List Nat) (mr sr : ReadOutcome)
        (rest : List IterEnv), m ≠ [] →
        relayLoop oh ih pfd m (IterEnv.mk (SelectOutcome.fail errnoEintr) none mr sr :: rest)
          = relayLoop oh ih pfd m rest)
    ∧ (∀ (oh ih : List Hook) (pfd : Nat) (m : List Nat) (er : Nat) (pol : Option Nat)
        (mr sr : ReadOutcome), er ≠ errnoEintr →
        relayStep oh ih pfd m (IterEnv.mk (SelectOutcome.fail er) pol mr sr)
          = ([], StepRes.fatal er)) := by
  refine ⟨?_, ?_, ?_⟩
  · intro oh ih pfd m st mr sr
    simp [relayStep]
  · intro oh ih pfd m mr sr rest hm
    simp [relayLoop, relayStep, hm]
  · intro oh ih pfd m er pol mr sr her
    simp [relayStep, her]

/-- C7 witness: the retry case evaluated on a two-descriptor state, and the
fatal case at errno 13. -/
theorem select_eintr_handling_witness :
    relayLoop [] [] 3 [3, 0]
        [IterEnv.mk (SelectOutcome.fail errnoEintr) none (ReadOutcome.ok []) (ReadOutcome.ok [])]
      = relayLoop [] [] 3 [3, 0] []
    ∧ relayStep [] [] 3 [3, 0]
        (IterEnv.mk (SelectOutcome.fail 13) none (ReadOutcome.ok []) (ReadOutcome.ok []))
      = ([], StepRes.fatal 13) :=
  ⟨select_eintr_handling.2.1 [] [] 3 [3, 0] (ReadOutcome.ok []) (ReadOutcome.ok []) []
      (by decide),
   select_eintr_handling.2.2 [] [] 3 [3, 0] 13 none (ReadOutcome.ok []) (ReadOutcome.ok [])
      (by decide)⟩

/-- C5: a zero-length read on the pty master and the peer-closed I/O error
(EIO) are both normalized to the same child-output-closed outcome, ending
the loop immediately with the subprocess status returned as a normal result;
a master read failing with any other errno, and any failure of the
controlling-input read, are fatal — the relay raises, and the error is
surfaced to the caller with the teardown trace having run. -/
theorem child_closed_and_fatal_errors :
    (∀ (oh ih : List Hook) (pfd : Nat) (m ready : List Nat) (pol : Option Nat)
        (sr : ReadOutcome), pfd ∈ ready →
        relayStep oh ih pfd m
            (IterEnv.mk (SelectOutcome.ready ready) pol (ReadOutcome.ok []) sr)
          = ([], StepRes.closed)
        ∧ relayStep oh ih pfd m
            (IterEnv.mk (SelectOutcome.ready ready) pol (ReadOutcome.fail errnoEio) sr)
          = ([], StepRes.closed))
    ∧ (∀ (oh ih : List Hook) (pfd : Nat) (ow : Option Handler) (attr : Option Nat)
        (oc : Handler) (ready : List Nat) (pol : Option Nat) (sr : ReadOutcome)
        (rest : List IterEnv) (ws : Nat), pfd ∈ ready →
        mainRun oh ih pfd ow attr oc
            (IterEnv.mk (SelectOutcome.ready ready) pol (ReadOutcome.ok []) sr :: rest) ws
          = (teardownTrace ow attr oc ++ [Event.waitChild], Except.ok ws))
    ∧ (∀ (oh ih : List Hook) (pfd : Nat) (m ready : List Nat) (pol : Option Nat)
        (sr : ReadOutcome) (er : Nat), pfd ∈ ready → er ≠ errnoEio →
        relayStep oh ih pfd m
            (IterEnv.mk (SelectOutcome.ready ready) pol (ReadOutcome.fail er) sr)
          = ([], StepRes.fatal er))
    ∧ (∀ (oh ih : List Hook) (pfd : Nat) (ow : Option Handler) (attr : Option Nat)
        (oc : Handler) (ready : List Nat) (pol : Option Nat) (sr : ReadOutcome)
        (er : Nat) (rest : List IterEnv) (ws : Nat), pfd ∈ ready → er ≠ errnoEio →
        mainRun oh ih pfd ow attr oc
            (IterEnv.mk (SelectOutcome.ready ready) pol (ReadOutcome.fail er) sr :: rest) ws
          = (teardownTrace ow attr oc, Except.error er))
    ∧ (∀ (oh ih : List Hook) (pfd : Nat) (m ready : List Nat) (pol : Option Nat)
        (mr : ReadOutcome) (er : Nat), pfd ∉ ready → stdinFd ∈ ready →
        relayStep oh ih pfd m
            (IterEnv.mk (SelectOutcome.ready ready) pol mr (ReadOutcome.fail er))
          = ([], StepRes.fatal er)) := by
  refine ⟨?_, ?_, ?_, ?_, ?_⟩
  · intro oh ih pfd m ready pol sr hmem
    constructor
    · simp [relayStep, masterBranch, hmem]
    · simp [relayStep, masterBranch, hmem, errnoEio]
  · intro oh ih pfd ow attr oc ready pol sr rest ws hmem
    simp [mainRun, relayLoop, relayStep, masterBranch, hmem]
  · intro oh ih pfd m ready pol sr er hmem her
    simp [relayStep, masterBranch, hmem, her]
  · intro oh ih pfd ow attr oc ready pol sr er rest ws hmem her
    simp [mainRun, relayLoop, relayStep, masterBranch, hmem, her]
  · intro oh ih pfd m ready pol mr er hnm hsm
    simp [relayStep, masterBranch, stdinBranch, hnm, hsm]

/-- C5 witness: a zero-length master read in the first iteration yields the
normal status, with teardown and wait in the trace. -/
theorem child_closed_and_fatal_errors_witness :
    mainRun [] [] 3 none none Handler.sigDfl
        [IterEnv.mk (SelectOutcome.ready [3]) none (ReadOutcome.ok []) (ReadOutcome.ok [])] 0
      = (teardownTrace none none Handler.sigDfl ++ [Event.waitChild], Except.ok 0) :=
  child_closed_and_fatal_errors.2.1 [] [] 3 none none Handler.sigDfl [3] none
    (ReadOutcome.ok []) [] 0 (by decide)

/-- C6: a zero-length read on the controlling input removes exactly the
controlling-input descriptor from the monitored list and the loop continues;
a continuing step only ever keeps the monitored list or removes the
controlling-input descriptor from it, so the list never regrows; with only
the master left monitored, subprocess output is still relayed. -/
theorem stdin_eof_removal :
    (∀ (ih : List Hook) (pfd : Nat) (m ready : List Nat), stdinFd ∈ ready →
        stdinBranch ih pfd m ready (ReadOutcome.ok [])
          = StdinRes.go [Event.dropStdin] (m.erase stdinFd))
    ∧ (∀ (oh ih : List Hook) (pfd : Nat) (m ready : List Nat) (pol : Option Nat)
        (mr : ReadOutcome), stdinFd ∈ ready → pfd ∉ ready →
        relayStep oh ih pfd m
            (IterEnv.mk (SelectOutcome.ready ready) pol mr (ReadOutcome.ok []))
          = ([Event.dropStdin], StepRes.cont (m.erase stdinFd)))
    ∧ (∀ (oh ih : List Hook) (pfd : Nat) (m : List Nat) (e : IterEnv) (evs : List Event)
        (m2 : List Nat),
        relayStep oh ih pfd m e = (evs, StepRes.cont m2) → m2 = m ∨ m2 = m.erase stdinFd)
    ∧ (∀ (oh ih : List Hook) (pfd : Nat) (d : Bytes) (pol : Option Nat) (sr : ReadOutcome),
        pfd ≠ stdinFd → d ≠ [] →
        relayStep oh ih pfd [pfd]
            (IterEnv.mk (SelectOutcome.ready [pfd]) pol (ReadOutcome.ok d) sr)
          = ([Event.writeOut (runHooks oh d pfd)], StepRes.cont [pfd])) := by
  refine ⟨?_, ?_, ?_, ?_⟩
  · intro ih pfd m ready hsm
    simp [stdinBranch, hsm]
  · intro oh ih pfd m ready pol mr hsm hnm
    simp [relayStep, masterBranch, stdinBranch, hsm, hnm]
  · intro oh ih pfd m e evs m2 h
    exact relayStep_cont_shape oh ih pfd m e evs m2 h
  · intro oh ih pfd d pol sr hne hd
    have h0 : ¬stdinFd = pfd := Ne.symm hne
    simp [relayStep, masterBranch, stdinBranch, hd, h0]

/-- C6 witness: with master 3 and stdin 0 monitored, a zero-length stdin
read removes descriptor 0 and the loop continues. -/
theorem stdin_eof_removal_witness :
    relayStep [] [] 3 [3, 0]
        (IterEnv.mk (SelectOutcome.ready [0]) none (ReadOutcome.ok []) (ReadOutcome.ok []))
      = ([Event.dropStdin], StepRes.cont (([3, 0] : List Nat).erase stdinFd)) :=
  stdin_eof_removal.2.1 [] [] 3 [3, 0] [0] none (ReadOutcome.ok []) (by decide) (by decide)

theorem relayLoop_ne_setEmpty (oh ih : List Hook) (pfd : Nat) (hne : pfd ≠ stdinFd) :
    ∀ (script : List IterEnv) (m : List Nat), pfd ∈ m →
      (relayLoop oh ih pfd m script).2 ≠ LoopExit.setEmpty := by
  intro script
  induction script with
  | nil =>
    intro m hm
    have hmne : m ≠ [] := List.ne_nil_of_mem hm
    simp [relayLoop, hmne]
  | cons e rest ih2 =>
    intro m hm
    have hmne : m ≠ [] := List.ne_nil_of_mem hm
    rcases hstep : relayStep oh ih pfd m e with ⟨evs, res⟩
    cases res with
    | closed => simp [relayLoop, hmne, hstep]
    | exited st => simp [relayLoop, hmne, hstep]
    | fatal er => simp [relayLoop, hmne, hstep]
    | cont m2 =>
      have hm2 : pfd ∈ m2 := by
        rcases relayStep_cont_shape oh ih pfd m e evs m2 hstep with h | h
        · rw [h]; exact hm
        · rw [h]; exact (List.mem_erase_of_ne hne).mpr hm
      have hrec := ih2 m2 hm2
      simp [relayLoop, hmne, hstep, hrec]

/-- C10: a continuing iteration never removes the pty master from the
monitored list, so the list stays non-empty and the loop never terminates by
the monitored list becoming empty — every exit is an explicit break or a
raised fatal error (or, in the model, exhaustion of the environment script).
-/
theorem master_always_monitored (oh ih : List Hook) (pfd : Nat) (m : List Nat)
    (script : List IterEnv) (hmem : pfd ∈ m) (hne : pfd ≠ stdinFd) :
    (∀ (e : IterEnv) (evs : List Event) (m2 : List Nat),
        relayStep oh ih pfd m e = (evs, StepRes.cont m2) → pfd ∈ m2)
    ∧ (relayLoop oh ih pfd m script).2 ≠ LoopExit.setEmpty := by
  constructor
  · intro e evs m2 h
    rcases relayStep_cont_shape oh ih pfd m e evs m2 h with h2 | h2
    · rw [h2]; exact hmem
    · rw [h2]; exact (List.mem_erase_of_ne hne).mpr hmem
  · exact relayLoop_ne_setEmpty oh ih pfd hne script m hmem

/-- C10 witness: from the initial monitored list of master 3 and stdin 0 the
loop does not exit by emptiness. -/
theorem master_always_monitored_witness :
    (relayLoop [] [] 3 [3, 0] []).2 ≠ LoopExit.setEmpty :=
  (master_always_monitored [] [] 3 [3, 0] [] (by decide) (by decide)).2

theorem masterBranch_events_relay (oh : List Hook) (pfd : Nat) (ready : List Nat)
    (r : ReadOutcome) (evs : List Event) (h : masterBranch oh pfd ready r = MasterRes.go evs) :
    ∀ ev ∈ evs, ev.isRelay = true := by
  unfold masterBranch at h
  split at h
  · cases r with
    | fail er =>
      dsimp only at h
      split at h
      · exact MasterRes.noConfusion h
      · exact MasterRes.noConfusion h
    | ok data =>
      dsimp only at h
      split at h
      · injection h with h1
        subst h1
        intro ev hev
        rw [List.mem_singleton] at hev
        subst hev
        rfl
      · exact MasterRes.noConfusion h
  · injection h with h1
    subst h1
    intro ev hev
    exact absurd hev (List.not_mem_nil ev)

theorem stdinBranch_events_relay (ih : List Hook) (pfd : Nat) (m ready : List Nat)
    (r : ReadOutcome) (evs : List Event) (m2 : List Nat)
    (h : stdinBranch ih pfd m ready r = StdinRes.go evs m2) :
    ∀ ev ∈ evs, ev.isRelay = true := by
  unfold stdinBranch at h
  split at h
  · cases r with
    | fail er => exact StdinRes.noConfusion h
    | ok data =>
      dsimp only at h
      split at h
      · injection h with h1 h2
        subst h1
        intro ev hev
        rw [List.mem_singleton] at hev
        subst hev
        rfl
      · injection h with h1 h2
        subst h1
        intro ev hev
        rw [List.mem_singleton] at hev
        subst hev
        rfl
  · injection h with h1 h2
    subst h1
    intro ev hev
    exact absurd hev (List.not_mem_nil ev)

theorem relayStep_events_relay (oh ih : List Hook) (pfd : Nat) (m : List Nat) (e : IterEnv)
    (evs : List Event) (res : StepRes) (h : relayStep oh ih pfd m e = (evs, res)) :
    ∀ ev ∈ evs, ev.isRelay = true := by
  obtain ⟨sel, pol, mr, sr⟩ := e
  cases sel with
  | fail er =>
    unfold relayStep at h
    dsimp only at h
    split at h
    · injection h with h1 h2
      subst h1
      intro ev hev
      exact absurd hev (List.not_mem_nil ev)
    · cases pol with
      | some st =>
        injection h with h1 h2
        subst h1
        intro ev hev
        exact absurd hev (List.not_mem_nil ev)
      | none =>
        injection h with h1 h2
        subst h1
        intro ev hev
        exact absurd hev (List.not_mem_nil ev)
  | ready ready =>
    unfold relayStep at h
    dsimp only at h
    cases hmb : masterBranch oh pfd ready mr with
    | fatalErr er =>
      rw [hmb] at h
      injection h with h1 h2
      subst h1
      intro ev hev
      exact absurd hev (List.not_mem_nil ev)
    | closed =>
      rw [hmb] at h
      injection h with h1 h2
      subst h1
      intro ev hev
      exact absurd hev (List.not_mem_nil ev)
    | go evsM =>
      rw [hmb] at h
      cases hsb : stdinBranch ih pfd m ready sr with
      | fatalErr er =>
        rw [hsb] at h
        injection h with h1 h2
        subst h1
        exact masterBranch_events_relay oh pfd ready mr evsM hmb
      | go evs2 m2 =>
        rw [hsb] at h
        injection h with h1 h2
        subst h1
        intro ev hev
        rcases List.mem_append.mp hev with hev2 | hev2
        · exact masterBranch_events_relay oh pfd ready mr evsM hmb ev hev2
        · exact stdinBranch_events_relay ih pfd m ready sr evs2 m2 hsb ev hev2

theorem relayLoop_events_relay (oh ih : List Hook) (pfd : Nat) :
    ∀ (script : List IterEnv) (m : List Nat),
      ∀ ev ∈ (relayLoop oh ih pfd m script).1, ev.isRelay = true := by
  intro script
  induction script with
  | nil =>
    intro m ev hev
    by_cases hm : m = [] <;> simp [relayLoop, hm] at hev
  | cons e rest ih2 =>
    intro m ev hev
    by_cases hm : m = []
    · simp [relayLoop, hm] at hev
    · rcases hstep : relayStep oh ih pfd m e with ⟨evs, res⟩
      cases res with
      | closed =>
        simp [relayLoop, hm, hstep] at hev
        exact relayStep_events_relay oh ih pfd m e evs StepRes.closed hstep ev hev
      | exited st =>
        simp [relayLoop, hm, hstep] at hev
        exact relayStep_events_relay oh ih pfd m e evs (StepRes.exited st) hstep ev hev
      | fatal er =>
        simp [relayLoop, hm, hstep] at hev
        exact relayStep_events_relay oh ih pfd m e evs (StepRes.fatal er) hstep ev hev
      | cont m2 =>
        simp [relayLoop, hm, hstep] at hev
        rcases hev with hev2 | hev2
        · exact relayStep_events_relay oh ih pfd m e evs (StepRes.cont m2) hstep ev hev2
        · exact ih2 m2 ev hev2

theorem teardownTrace_facts (ow : Option Handler) (attr : Option Nat) (oc : Handler) :
    (teardownTrace ow attr oc).count Event.closeMaster = 1
    ∧ (Event.restoreTty ∈ teardownTrace ow attr oc ↔ attr.isSome = true)
    ∧ Event.waitChild ∉ teardownTrace ow attr oc := by
  cases h1 : optHandlerTruthy ow <;> cases attr <;> cases h2 : oc.truthy <;>
    simp [teardownTrace, h1, h2, List.count_cons, List.count_nil]

/-- C9: on every exit path the event trace of a full run is the loop trace,
then the teardown block exactly once — restore the resize handler (when a
previous handler was saved), restore terminal attributes (exactly when
attributes were captured, after which the attributes equal the captured
snapshot), restore the child-termination handler (when the previous one was
truthy), close the pty master — and the master is closed exactly once; then
the subprocess is waited for and its status returned unchanged, unless a
fatal error is being surfaced, in which case that error reaches the caller
after the teardown. -/
theorem teardown_order_and_result (oh ih : List Hook) (pfd : Nat) (ow : Option Handler)
    (attr : Option Nat) (oc : Handler) (script : List IterEnv) (ws : Nat) :
    ((mainRun oh ih pfd ow attr oc script ws).1
        = (relayLoop oh ih pfd [pfd, stdinFd] script).1
            ++ ((if optHandlerTruthy ow then [Event.restoreWinch] else [])
                ++ (if attr.isSome then [Event.restoreTty] else [])
                ++ (if oc.truthy then [Event.restoreChld] else [])
                ++ [Event.closeMaster])
            ++ (match (relayLoop oh ih pfd [pfd, stdinFd] script).2 with
                | LoopExit.fatal _ => []
                | _ => [Event.waitChild]))
    ∧ (mainRun oh ih pfd ow attr oc script ws).1.count Event.closeMaster = 1
    ∧ (Event.restoreTty ∈ (mainRun oh ih pfd ow attr oc script ws).1 ↔ attr.isSome = true)
    ∧ ((mainRun oh ih pfd ow attr oc script ws).2
        = match (relayLoop oh ih pfd [pfd, stdinFd] script).2 with
          | LoopExit.fatal er => Except.error er
          | _ => Except.ok ws)
    ∧ (∀ a cur, ttyTeardown (some a) cur = a)
    ∧ (∀ cur, ttyTeardown none cur = cur) := by
  have hpure : ∀ ev ∈ (relayLoop oh ih pfd [pfd, stdinFd] script).1, ev.isRelay = true :=
    relayLoop_events_relay oh ih pfd script [pfd, stdinFd]
  have hnoclose : Event.closeMaster ∉ (relayLoop oh ih pfd [pfd, stdinFd] script).1 := by
    intro hmem
    have := hpure Event.closeMaster hmem
    exact absurd this (by decide)
  have hnotty : Event.restoreTty ∉ (relayLoop oh ih pfd [pfd, stdinFd] script).1 := by
    intro hmem
    have := hpure Event.restoreTty hmem
    exact absurd this (by decide)
  obtain ⟨hcnt, hmemtty, hwc⟩ := teardownTrace_facts ow attr oc
  refine ⟨?_, ?_, ?_, ?_, fun a cur => rfl, fun cur => rfl⟩
  · unfold mainRun
    cases hx : (relayLoop oh ih pfd [pfd, stdinFd] script).2 <;>
      simp [hx, teardownTrace]
  · unfold mainRun
    cases hx : (relayLoop oh ih pfd [pfd, stdinFd] script).2 <;>
      simp [hx, List.count_append, List.count_eq_zero.mpr hnoclose, hcnt,
        List.count_cons, List.count_nil]
  · unfold mainRun
    cases hx : (relayLoop oh ih pfd [pfd, stdinFd] script).2 <;>
      simp [hx, List.mem_append, hnotty, hmemtty]
  · unfold mainRun
    cases hx : (relayLoop oh ih pfd [pfd, stdinFd] script).2 <;> simp [hx]

end PTYHooks
